import Mathlib

/-!
# Finstack: the dashboard aggregation and the API routes

A shallow embedding of the `useMemo` callback of `HomePage`
(`frontend/components/pages/index.js`, lines 80-166) with the values it reads, and of
the routes of `backend/src/server.js` over the two schemas, followed by theorems about
them.

Modelling conventions
* Amounts are exact rationals; `parseFloat` of a finite JSON number is the number itself.
  Where a statement has to hold for the doubles the browser adds, the monthly series is
  taken over numbers whose addition is left open (`NumberOps`, `monthlyDataOf`).
* A `Date` is observed only through `toLocaleString('default', { month })`, so it is
  embedded as `Invalid Date` or as the local calendar fields of a valid instant.
* The runtime default locale is en-US (month names `Jan`..`Dec`, `January`..`December`).
* A plain JS object used as a dictionary is the list of its own properties in creation
  order, read through `Object.prototype` when a key is not an own property.
-/

namespace Finstack

/-! ## Data model -/

/-- The `type` enum of `transactionSchema`: `['income', 'expense']`, required. -/
inductive TxType where
  | income
  | expense
deriving DecidableEq, Repr

/-- A JS `Date`: `Invalid Date`, or a valid instant seen through its local calendar
fields (`month` is the zero-based month of `getMonth()`). -/
inductive JSDate where
  | invalid
  | instant (year : Int) (month : Fin 12) (day : Nat)
deriving DecidableEq

/-- A transaction record as served by `GET /api/transactions` (`transactionSchema`);
`date` is the result of `new Date(t.date)`. -/
structure Transaction where
  description : String
  amount : ℚ
  type : TxType
  category : String
  date : JSDate
deriving DecidableEq

/-- `parseFloat(t.amount)` on a finite number. -/
def parseFloat (amount : ℚ) : ℚ := amount

/-! ## Locale month names -/

/-- Short month names of the locale, by `getMonth()` index. -/
def shortMonthNames : List String :=
  ["Jan", "Feb", "Mar", "Apr", "May", "Jun", "Jul", "Aug", "Sep", "Oct", "Nov", "Dec"]

/-- Long month names of the locale, by `getMonth()` index. -/
def longMonthNames : List String :=
  ["January", "February", "March", "April", "May", "June", "July", "August",
   "September", "October", "November", "December"]

/-- The `month` option of `toLocaleString`. -/
inductive MonthStyle where
  | short
  | long
deriving DecidableEq

/-- Name of month `m` in the given style. -/
def monthName (style : MonthStyle) (m : Fin 12) : String :=
  match style with
  | .short => shortMonthNames.getD m.val ""
  | .long => longMonthNames.getD m.val ""

/-- `date.toLocaleString('default', { month: style })`; an invalid date prints as
`Invalid Date`. -/
def toLocaleString (date : JSDate) (style : MonthStyle) : String :=
  match date with
  | .invalid => "Invalid Date"
  | .instant _ m _ => monthName style m

/-- `s.toLowerCase()` (letters `A`-`Z`). -/
def toLowerCase (s : String) : String := ⟨s.data.map Char.toLower⟩

/-- `s.substring(0, n)`. -/
def substring0 (s : String) (n : Nat) : String := ⟨s.data.take n⟩

/-! ## Plain objects used as dictionaries -/

/-- Own properties of an object literal `{}` that is filled by `acc[key] = value`, in
creation order. -/
abbrev JSObject (V : Type) := List (String × V)

/-- Property names every plain object inherits from `Object.prototype`. -/
def objectPrototypeKeys : List String :=
  ["constructor", "__defineGetter__", "__defineSetter__", "hasOwnProperty",
   "__lookupGetter__", "__lookupSetter__", "isPrototypeOf", "propertyIsEnumerable",
   "toString", "valueOf", "__proto__", "toLocaleString"]

/-- Result of reading `acc[key]`. -/
inductive Member (V : Type) where
  | own (v : V)
  | inherited (key : String)
  | undefined

namespace JSObject

variable {V : Type}

/-- Own property lookup. -/
def own? : JSObject V → String → Option V
  | [], _ => none
  | (k, v) :: rest, key => if k = key then some v else own? rest key

/-- Read `acc[key]`: the own property, else the member inherited from
`Object.prototype`, else `undefined`. -/
def get (acc : JSObject V) (key : String) : Member V :=
  match own? acc key with
  | some v => .own v
  | none => if key ∈ objectPrototypeKeys then .inherited key else .undefined

/-- Write `acc[key] = v`: replaces the own property, or creates it last. -/
def set : JSObject V → String → V → JSObject V
  | [], key, v => [(key, v)]
  | (k, w) :: rest, key, v => if k = key then (k, v) :: rest else (k, w) :: set rest key v

/-- Update in place the object stored under `acc[key]` (as `acc[key].field += x` does).
Every call follows the guard `if (!acc[key]) acc[key] = ...`, so `acc[key]` is defined:
it is an own property, updated here, or an inherited member, in which case the write
lands on that member and the own properties of `acc` are unchanged. -/
def modify : JSObject V → String → (V → V) → JSObject V
  | [], _, _ => []
  | (k, w) :: rest, key, f =>
      if k = key then (k, f w) :: rest else (k, w) :: modify rest key f

end JSObject

/-- Whether `key` is a canonical array index (`"0"`, `"1"`, ... below `2^32 - 1`), and
which. -/
def arrayIndex? (key : String) : Option Nat :=
  let cs := key.data
  if cs ≠ [] ∧ cs.all Char.isDigit ∧ (cs.head? ≠ some '0' ∨ cs.length = 1) then
    let n := cs.foldl (fun n c => 10 * n + (c.toNat - 48)) 0
    if n < 4294967295 then some n else none
  else
    none

/-- Insert an indexed property into a list sorted by index. -/
def insertIndexed {V : Type} (n : Nat) (v : V) : List (Nat × V) → List (Nat × V)
  | [] => [(n, v)]
  | (m, w) :: rest => if n < m then (n, v) :: (m, w) :: rest else (m, w) :: insertIndexed n v rest

/-- `Object.values(o)`: the values of array-index keys in ascending index order, then
those of the other keys in creation order. -/
def Object.values {V : Type} (o : JSObject V) : List V :=
  let indexed := o.foldl (fun acc kv =>
    match arrayIndex? kv.1 with
    | some n => insertIndexed n kv.2 acc
    | none => acc) ([] : List (Nat × V))
  let named := o.filter (fun kv => (arrayIndex? kv.1).isNone)
  indexed.map Prod.snd ++ named.map Prod.snd

/-! ## Monthly series (lines 88-104) -/

/-- An entry of `monthlyAggregates` / `monthlyData`. -/
structure MonthEntry where
  name : String
  income : ℚ
  expenses : ℚ
deriving DecidableEq

/-- The reducer of `monthlyAggregates` (lines 88-100). -/
def monthlyReducer (acc : JSObject MonthEntry) (t : Transaction) : JSObject MonthEntry :=
  let date := t.date
  let monthName := toLocaleString date .short
  let acc :=
    match acc.get monthName with
    | .undefined => acc.set monthName { name := monthName, income := 0, expenses := 0 }
    | _ => acc
  if t.type = .income then
    acc.modify monthName (fun e => { e with income := e.income + parseFloat t.amount })
  else
    acc.modify monthName (fun e => { e with expenses := e.expenses + parseFloat t.amount })

/-- The object `monthlyAggregates`: `transactions.reduce(..., {})`. -/
def monthlyAggregates (transactions : List Transaction) : JSObject MonthEntry :=
  transactions.foldl monthlyReducer []

/-- The array `fullYearMonths` (line 103): `new Date(0, i)` is the first day of month
`i` of 1900. -/
def fullYearMonths : List String :=
  (List.finRange 12).map (fun i => toLocaleString (.instant 1900 i 1) .short)

/-- The value `monthlyAggregates[month] || { name: month, income: 0, expenses: 0 }`. An
inherited member is truthy and would be kept as is; no entry of `fullYearMonths` names
one, so that branch carries the default entry. -/
def monthEntryOrDefault (aggregates : JSObject MonthEntry) (month : String) : MonthEntry :=
  match aggregates.get month with
  | .own e => e
  | .inherited _ => { name := month, income := 0, expenses := 0 }
  | .undefined => { name := month, income := 0, expenses := 0 }

/-- The array `monthlyData` (line 104). -/
def monthlyData (transactions : List Transaction) : List MonthEntry :=
  fullYearMonths.map (monthEntryOrDefault (monthlyAggregates transactions))

/-! ## Category breakdown (lines 106-119) -/

/-- An entry of `categoryAggregates`. -/
structure CategoryEntry where
  name : String
  value : ℚ
deriving DecidableEq

/-- An entry of `expenseCategories`: `{ ...cat, color }`; `color` is `none` when the
palette lookup yields `undefined`. -/
structure ColoredCategory where
  name : String
  value : ℚ
  color : Option String
deriving DecidableEq

/-- The reducer of `categoryAggregates` (lines 107-115). -/
def categoryReducer (acc : JSObject CategoryEntry) (t : Transaction) : JSObject CategoryEntry :=
  if t.type = .expense then
    let acc :=
      match acc.get t.category with
      | .undefined => acc.set t.category { name := t.category, value := 0 }
      | _ => acc
    acc.modify t.category (fun e => { e with value := e.value + parseFloat t.amount })
  else
    acc

/-- The object `categoryAggregates`. -/
def categoryAggregates (transactions : List Transaction) : JSObject CategoryEntry :=
  transactions.foldl categoryReducer []

/-- An exception thrown while the callback runs. -/
inductive JSError where
  | referenceError (name : String)
deriving DecidableEq

/-- State of a `const` binding of the enclosing function when it is read: before its
declaration has been evaluated it is uninitialised and a read throws. -/
inductive Binding (α : Type) where
  | uninitialized
  | initialized (value : α)

/-- Read a `const` binding. -/
def Binding.read {α : Type} (name : String) : Binding α → Except JSError α
  | .uninitialized => .error (.referenceError name)
  | .initialized v => .ok v

/-- One result of `Math.random()`: a number in `[0, 1)`. -/
structure Draw where
  val : ℚ
  nonneg : 0 ≤ val
  lt_one : val < 1

/-- The successive results of `Math.random()` during one run of the callback. -/
abbrev RandomSource := Nat → Draw

/-- `Math.floor(Math.random() * n)` for the given draw. -/
def randomBelow (d : Draw) (n : Nat) : Nat := Int.toNat ⌊d.val * n⌋

/-- The `.map(cat => ({ ...cat, color: COLORS[...] }))` of lines 116-119; `i` counts the
draws made so far. -/
def colorCategories (COLORS : Binding (List String)) (random : RandomSource) :
    List CategoryEntry → Nat → Except JSError (List ColoredCategory)
  | [], _ => .ok []
  | cat :: rest, i =>
      match COLORS.read "COLORS" with
      | .error e => .error e
      | .ok palette =>
          let color := palette.get? (randomBelow (random i) palette.length)
          match colorCategories COLORS random rest (i + 1) with
          | .error e => .error e
          | .ok tail => .ok ({ name := cat.name, value := cat.value, color := color } :: tail)

/-- An entry of the mock `investments` array. -/
structure Investment where
  name : String
  value : Nat
  color : String
deriving DecidableEq

/-- The mock `investments` (lines 122-127); `i` counts the draws made so far. -/
def mockInvestments (random : RandomSource) (i : Nat) : List Investment :=
  [ { name := "Stocks", value := randomBelow (random i) 5000 + 10000, color := "#0088FE" },
    { name := "Bonds", value := randomBelow (random (i + 1)) 3000 + 5000, color := "#00C49F" },
    { name := "Real Estate", value := randomBelow (random (i + 2)) 8000 + 15000,
      color := "#FFBB28" },
    { name := "Mutual Funds", value := randomBelow (random (i + 3)) 4000 + 8000,
      color := "#FF8042" } ]

/-! ## Current-month totals (lines 85, 130-134) -/

/-- The value `currentMonthData` (lines 130-131) for `currentMonth`. -/
def currentMonthData (monthlyData : List MonthEntry) (currentMonth : String) :
    Option MonthEntry :=
  let currentMonthShort := substring0 currentMonth 3
  monthlyData.find? (fun m => m.name = currentMonthShort)

/-- The value `totalIncome` (line 132). -/
def totalIncome (monthlyData : List MonthEntry) (currentMonth : String) : ℚ :=
  match currentMonthData monthlyData currentMonth with
  | some d => d.income
  | none => 0

/-- The value `totalExpenses` (line 133). -/
def totalExpenses (monthlyData : List MonthEntry) (currentMonth : String) : ℚ :=
  match currentMonthData monthlyData currentMonth with
  | some d => d.expenses
  | none => 0

/-- The value `netSavings` (line 134). -/
def netSavings (monthlyData : List MonthEntry) (currentMonth : String) : ℚ :=
  totalIncome monthlyData currentMonth - totalExpenses monthlyData currentMonth

/-! ## Filtered view and filtered summary (lines 136-153, 163) -/

/-- The array `filteredTransactions` (lines 136-138). -/
def filteredTransactions (transactions : List Transaction) (filterMonth : String) :
    List Transaction :=
  if filterMonth = "all" then transactions
  else transactions.filter (fun t =>
    toLowerCase (toLocaleString t.date .long) = toLowerCase filterMonth)

/-- An entry of `summary`. -/
structure Summary where
  income : ℚ
  expenses : ℚ
deriving DecidableEq

/-- The reducer of `summary` (lines 140-151). -/
def summaryReducer (acc : JSObject Summary) (transaction : Transaction) : JSObject Summary :=
  let month := toLocaleString transaction.date .long
  let acc :=
    match acc.get month with
    | .undefined => acc.set month { income := 0, expenses := 0 }
    | _ => acc
  if transaction.type = .income then
    acc.modify month (fun e => { e with income := e.income + parseFloat transaction.amount })
  else
    acc.modify month (fun e => { e with expenses := e.expenses + parseFloat transaction.amount })

/-- The object `summary`. -/
def summary (filtered : List Transaction) : JSObject Summary :=
  filtered.foldl summaryReducer []

/-- The value of `summary[filterMonth] || { income: 0, expenses: 0 }`: a record, or the
(truthy) member of `Object.prototype` that `filterMonth` names. -/
inductive SummaryValue where
  | record (s : Summary)
  | prototypeMember (key : String)
deriving DecidableEq

/-- The value `monthlySummary` (line 163). -/
def monthlySummary (transactions : List Transaction) (filterMonth : String) : SummaryValue :=
  match (summary (filteredTransactions transactions filterMonth)).get filterMonth with
  | .own s => .record s
  | .inherited key => .prototypeMember key
  | .undefined => .record { income := 0, expenses := 0 }

/-- `new Date(Date.parse(name + " 1, 2000"))` for a short month name; any other text
is taken as unparseable. -/
def dateOfShortMonth (name : String) : JSDate :=
  match (List.finRange 12).find? (fun i => monthName .short i = name) with
  | some i => .instant 2000 i 1
  | none => .invalid

/-- The array `allMonths` (line 153). -/
def allMonths (monthlyData : List MonthEntry) : List String :=
  monthlyData.map (fun m => toLocaleString (dateOfShortMonth m.name) .long)

/-- The `value` attributes of the month filter's options (lines 321-326). -/
def selectValues (allMonths : List String) : List String :=
  "all" :: allMonths.map toLowerCase

/-! ## The callback and its call (lines 80-166, 169) -/

/-- The object returned by the callback (lines 155-165). -/
structure Aggregation where
  monthlyData : List MonthEntry
  expenseCategories : List ColoredCategory
  investments : List Investment
  totalIncome : ℚ
  totalExpenses : ℚ
  netSavings : ℚ
  filteredTransactions : List Transaction
  monthlySummary : SummaryValue
  allMonths : List String

/-- The callback passed to `useMemo`, as a function of what it reads: the binding
`COLORS`, the results of `Math.random()`, the instant `new Date()`, and the state
`transactions`, `filterMonth`. -/
def useMemoCallback (COLORS : Binding (List String)) (random : RandomSource) (now : JSDate)
    (transactions : List Transaction) (filterMonth : String) : Except JSError Aggregation :=
  let currentMonth := toLocaleString now .long
  let monthlyData := monthlyData transactions
  let cats := Object.values (categoryAggregates transactions)
  match colorCategories COLORS random cats 0 with
  | .error e => .error e
  | .ok expenseCategories =>
      let investments := mockInvestments random cats.length
      .ok { monthlyData := monthlyData
            expenseCategories := expenseCategories
            investments := investments
            totalIncome := totalIncome monthlyData currentMonth
            totalExpenses := totalExpenses monthlyData currentMonth
            netSavings := netSavings monthlyData currentMonth
            filteredTransactions := filteredTransactions transactions filterMonth
            monthlySummary := monthlySummary transactions filterMonth
            allMonths := allMonths monthlyData }

/-- The palette of line 169. -/
def COLORS : List String :=
  ["#0088FE", "#00C49F", "#FFBB28", "#FF8042", "#A28BEE", "#FF6384", "#36A2EB"]

/-- The aggregation as `HomePage` computes it: `useMemo` (line 80) runs the callback
during render, before the declaration `const COLORS = ...` of line 169 is evaluated. -/
def HomePage.aggregation (random : RandomSource) (now : JSDate)
    (transactions : List Transaction) (filterMonth : String) : Except JSError Aggregation :=
  useMemoCallback .uninitialized random now transactions filterMonth

/-! ## Monthly series over the arithmetic of JS numbers

Lines 88-104 again, with the numbers and their addition left open, so that what is
proved of this form holds for the doubles the browser adds as well as for exact
amounts. -/

/-- The operations on numbers that lines 88-104 use: the literal `0`, the addition of
`+=`, and `parseFloat` of an amount. No law relating them is assumed; doubles with their
rounding addition are one instance, exact rationals another. -/
structure NumberOps (N : Type) where
  zero : N
  add : N → N → N
  parseFloat : ℚ → N

/-- An entry of `monthlyAggregates` / `monthlyData` over the numbers `N`. -/
structure MonthEntryOf (N : Type) where
  name : String
  income : N
  expenses : N

/-- The reducer of `monthlyAggregates` (lines 88-100) over `ops`. -/
def monthlyReducerOf {N : Type} (ops : NumberOps N) (acc : JSObject (MonthEntryOf N))
    (t : Transaction) : JSObject (MonthEntryOf N) :=
  let date := t.date
  let monthName := toLocaleString date .short
  let acc :=
    match acc.get monthName with
    | .undefined =>
        acc.set monthName { name := monthName, income := ops.zero, expenses := ops.zero }
    | _ => acc
  if t.type = .income then
    acc.modify monthName
      (fun e => { e with income := ops.add e.income (ops.parseFloat t.amount) })
  else
    acc.modify monthName
      (fun e => { e with expenses := ops.add e.expenses (ops.parseFloat t.amount) })

/-- The object `monthlyAggregates` over `ops`. -/
def monthlyAggregatesOf {N : Type} (ops : NumberOps N) (transactions : List Transaction) :
    JSObject (MonthEntryOf N) :=
  transactions.foldl (monthlyReducerOf ops) []

/-- The value `monthlyAggregates[month] || { name: month, income: 0, expenses: 0 }` over
`ops`; the inherited branch is as in `monthEntryOrDefault`. -/
def monthEntryOrDefaultOf {N : Type} (ops : NumberOps N)
    (aggregates : JSObject (MonthEntryOf N)) (month : String) : MonthEntryOf N :=
  match aggregates.get month with
  | .own e => e
  | .inherited _ => { name := month, income := ops.zero, expenses := ops.zero }
  | .undefined => { name := month, income := ops.zero, expenses := ops.zero }

/-- The array `monthlyData` (line 104) over `ops`. -/
def monthlyDataOf {N : Type} (ops : NumberOps N) (transactions : List Transaction) :
    List (MonthEntryOf N) :=
  fullYearMonths.map (monthEntryOrDefaultOf ops (monthlyAggregatesOf ops transactions))

/-- Exact amounts as an instance of the operations. -/
def exactOps : NumberOps ℚ :=
  { zero := 0, add := fun x y => x + y, parseFloat := parseFloat }

/-- An entry over exact amounts as an entry over `ℚ`. -/
def MonthEntry.toOf (e : MonthEntry) : MonthEntryOf ℚ :=
  { name := e.name, income := e.income, expenses := e.expenses }

/-! ## Reference quantities and sample data used in the statements -/

/-- The zero-based month a date falls in, if the date is valid. -/
def JSDate.month? : JSDate → Option (Fin 12)
  | .invalid => none
  | .instant _ m _ => some m

/-- Sum of the amounts of the transactions of type `ty` whose month name in `style` is `k`. -/
def monthTotal (ty : TxType) (style : MonthStyle) (ts : List Transaction) (k : String) : ℚ :=
  ((ts.filter (fun t => toLocaleString t.date style = k ∧ t.type = ty)).map
    (fun t => t.amount)).sum

/-- The outputs the output contract names, with each category group as its name and
value (the colour aside). -/
def Aggregation.view (r : Aggregation) :
    List MonthEntry × List (String × ℚ) × ℚ × ℚ × ℚ × List Transaction × SummaryValue
      × List String :=
  (r.monthlyData, r.expenseCategories.map (fun c => (c.name, c.value)), r.totalIncome,
    r.totalExpenses, r.netSavings, r.filteredTransactions, r.monthlySummary, r.allMonths)

/-- The scenario transaction: Coffee, 4.50, expense, Dining, 2024-03-05. -/
def coffee : Transaction :=
  { description := "Coffee", amount := 9 / 2, type := .expense, category := "Dining",
    date := .instant 2024 2 5 }

/-- An income of 100 dated 2024-03-01. -/
def salary : Transaction :=
  { description := "Salary", amount := 100, type := .income, category := "Income",
    date := .instant 2024 2 1 }

/-- An expense of 5 dated 2024-03-05 whose category text is `constructor`. -/
def constructorExpense : Transaction :=
  { description := "Fee", amount := 5, type := .expense, category := "constructor",
    date := .instant 2024 2 5 }

/-- A random source whose every draw is `q`. -/
def constantDraws (q : ℚ) (h0 : 0 ≤ q) (h1 : q < 1) : RandomSource :=
  fun _ => { val := q, nonneg := h0, lt_one := h1 }

/-! ## Backend: the document store and the routes of `backend/src/server.js`

The store is reachable and answers every operation; records are kept in insertion
order, which is the order `find({})` returns them in. Instants are milliseconds since
the epoch. -/

/-- A stored category: the fields of `categorySchema`, the identifier and the
timestamps the store assigns. -/
structure CategoryDoc where
  id : Nat
  name : String
  type : String
  createdAt : Int
  updatedAt : Int
deriving DecidableEq

/-- A plain `{ name, type }` object, as in the literal of lines 67-77. -/
structure CategoryFields where
  name : String
  type : String
deriving DecidableEq

/-- A stored transaction: the fields of `transactionSchema`, the identifier and the
timestamps the store assigns. -/
structure TransactionDoc where
  id : Nat
  description : String
  amount : ℚ
  type : String
  category : String
  date : Int
  createdAt : Int
  updatedAt : Int
deriving DecidableEq

/-- The two collections and the source of fresh identifiers. -/
structure Store where
  transactions : List TransactionDoc
  categories : List CategoryDoc
  nextId : Nat
deriving DecidableEq

/-- A truthy value of the body field `date`, or the number `Date.now()`. -/
inductive DateInput where
  | number (ms : ℚ)
  | text (s : String)
deriving DecidableEq

/-- The body field `date`: missing, `null`, or a number or string. -/
inductive DateField where
  | absent
  | null
  | value (v : DateInput)
deriving DecidableEq

/-- The destructured `req.body` of line 40; a field missing from the JSON is `none`. -/
structure TransactionPayload where
  description : Option String
  amount : Option ℚ
  type : Option String
  category : Option String
  date : DateField
deriving DecidableEq

/-- A JSON response body. -/
inductive Body where
  | transactions (docs : List TransactionDoc)
  | transaction (doc : TransactionDoc)
  | categoryDocs (docs : List CategoryDoc)
  | categoryObjects (objects : List CategoryFields)
  | message (text : String)
deriving DecidableEq

/-- An HTTP response: status code and JSON body (`res.json` alone answers 200). -/
structure Response where
  status : Nat
  body : Body
deriving DecidableEq

/-- The answer of every `catch` block: `res.status(500).json({ message: 'Server Error' })`. -/
def serverError : Response := { status := 500, body := .message "Server Error" }

/-- The `enum` of both schemas. -/
def typeEnum : List String := ["income", "expense"]

/-- The `required: true` check of a String path: present and of positive length. -/
def requiredString : Option String → Option String
  | some s => if s = "" then none else some s
  | none => none

/-- Instants a `Date` can hold: at most 8.64e15 ms from the epoch. -/
def validTime (ms : Int) : Prop := -8640000000000000 ≤ ms ∧ ms ≤ 8640000000000000

instance (ms : Int) : Decidable (validTime ms) := by
  unfold validTime
  infer_instance

/-- A result of `Date.now()`: a whole number of milliseconds that a `Date` can hold. -/
structure ClockReading where
  ms : Int
  valid : validTime ms

/-- The expression `date || Date.now()` of line 48: `undefined`, `null`, `0` and `''`
are falsy. -/
def dateOrNow (date : DateField) (now : ClockReading) : DateInput :=
  match date with
  | .absent => .number now.ms
  | .null => .number now.ms
  | .value (.number ms) => if ms = 0 then .number now.ms else .number ms
  | .value (.text s) => if s = "" then .number now.ms else .text s

/-- The time value of `new Date(ms)` for a number: none (an invalid date) beyond
8.64e15 ms from the epoch, else the number cut to whole milliseconds toward zero. -/
def timeClip (ms : ℚ) : Option Int :=
  if |ms| ≤ 8640000000000000 then some (if 0 ≤ ms then ⌊ms⌋ else ⌈ms⌉) else none

/-- Cast of a value to the `Date` path: a number is taken as milliseconds, a string
goes through the runtime's date parsing `parseDate`, which gives `none` for a text that
is no date; `none` is a cast error. -/
def castDate (parseDate : String → Option Int) : DateInput → Option Int
  | .number ms => timeClip ms
  | .text s => parseDate s

/-- `Transaction.find({})`. -/
def Transaction.find (s : Store) : List TransactionDoc := s.transactions

/-- `Category.find({})`. -/
def Category.find (s : Store) : List CategoryDoc := s.categories

/-- The route `GET /api/transactions` (lines 26-35). -/
def getTransactions (s : Store) : Response :=
  let transactions := Transaction.find s
  { status := 200, body := .transactions transactions }

/-- The calls `new Transaction({...})` and `save()` of lines 43-52: validation against
`transactionSchema`, then insertion with a fresh identifier and the timestamps `stamp`.
`none` is a rejected save, which leaves the store as it was. -/
def Transaction.save (parseDate : String → Option Int) (stamp : Int) (s : Store)
    (description : Option String) (amount : Option ℚ) (type : Option String)
    (category : Option String) (date : DateInput) : Option (Store × TransactionDoc) :=
  match requiredString description, amount, requiredString type, requiredString category,
      castDate parseDate date with
  | some d, some a, some t, some c, some instant =>
      if t ∈ typeEnum then
        let doc : TransactionDoc :=
          { id := s.nextId, description := d, amount := a, type := t, category := c,
            date := instant, createdAt := stamp, updatedAt := stamp }
        some ({ s with transactions := s.transactions ++ [doc], nextId := s.nextId + 1 }, doc)
      else
        none
  | _, _, _, _, _ => none

/-- The route `POST /api/transactions` (lines 38-58); `now` is `Date.now()` on line 48
and `stamp` the instant of the save. -/
def postTransactions (parseDate : String → Option Int) (now : ClockReading) (stamp : Int)
    (s : Store) (body : TransactionPayload) : Store × Response :=
  let date := dateOrNow body.date now
  match Transaction.save parseDate stamp s body.description body.amount body.type
      body.category date with
  | some (s1, createdTransaction) =>
      (s1, { status := 201, body := .transaction createdTransaction })
  | none => (s, serverError)

/-- The literal `defaultCategories` (lines 67-77). -/
def defaultCategories : List CategoryFields :=
  [ { name := "Food", type := "expense" },
    { name := "Income", type := "income" },
    { name := "Housing", type := "expense" },
    { name := "Dining", type := "expense" },
    { name := "Transport", type := "expense" },
    { name := "Utilities", type := "expense" },
    { name := "Entertainment", type := "expense" },
    { name := "Shopping", type := "expense" },
    { name := "Health", type := "expense" } ]

/-- Validation of one object against `categorySchema`. -/
def validCategory (c : CategoryFields) : Bool :=
  (requiredString (some c.name)).isSome && (requiredString (some c.type)).isSome
    && decide (c.type ∈ typeEnum)

/-- Ordered insertion of validated objects: each gets a fresh identifier and the
timestamps `stamp`; the first object whose `name` is already stored violates the unique
index and stops the insertion (`false`), the objects before it staying stored. -/
def insertOrdered (stamp : Int) : Store → List CategoryFields → Store × Bool
  | s, [] => (s, true)
  | s, c :: rest =>
      if s.categories.any (fun d => d.name = c.name) then (s, false)
      else
        insertOrdered stamp
          { s with
            categories := s.categories ++
              [{ id := s.nextId, name := c.name, type := c.type, createdAt := stamp,
                 updatedAt := stamp }]
            nextId := s.nextId + 1 } rest

/-- `Category.insertMany(docs)`: every object is validated first, and nothing is
inserted when one fails; then the objects are inserted in order. -/
def Category.insertMany (stamp : Int) (s : Store) (docs : List CategoryFields) : Store × Bool :=
  if docs.all validCategory then insertOrdered stamp s docs else (s, false)

/-- The route `GET /api/categories` (lines 61-86); `stamp` is the instant of the
insertion. -/
def getCategories (stamp : Int) (s : Store) : Store × Response :=
  let categories := Category.find s
  if categories.length = 0 then
    match Category.insertMany stamp s defaultCategories with
    | (s1, true) => (s1, { status := 200, body := .categoryObjects defaultCategories })
    | (s1, false) => (s1, serverError)
  else
    (s, { status := 200, body := .categoryDocs categories })

/-- The store and the responses after sequential calls of `GET /api/categories`, one
per instant of `stamps`. -/
def getCategoriesSeq : Store → List Int → Store × List Response
  | s, [] => (s, [])
  | s, stamp :: rest =>
      let (s1, r) := getCategories stamp s
      let (s2, rs) := getCategoriesSeq s1 rest
      (s2, r :: rs)

/-- The `name`/`type` pairs of a response to `GET /api/categories`. -/
def Response.categoryPairs (r : Response) : Option (List (String × String)) :=
  match r.body with
  | .categoryDocs docs => some (docs.map (fun d => (d.name, d.type)))
  | .categoryObjects objects => some (objects.map (fun c => (c.name, c.type)))
  | _ => none

/-- The nine default categories as `name`/`type` pairs. -/
def defaultPairs : List (String × String) :=
  [("Food", "expense"), ("Income", "income"), ("Housing", "expense"), ("Dining", "expense"),
   ("Transport", "expense"), ("Utilities", "expense"), ("Entertainment", "expense"),
   ("Shopping", "expense"), ("Health", "expense")]

/-- A date parser that knows the scenario's date text: `2024-03-05` is midnight UTC of
that day. -/
def scenarioParseDate (s : String) : Option Int :=
  if s = "2024-03-05" then some 1709596800000 else none

/-- The scenario's request body. -/
def coffeePayload : TransactionPayload :=
  { description := some "Coffee", amount := some (9 / 2), type := some "expense",
    category := some "Dining", date := .value (.text "2024-03-05") }

/-- A reading of the clock: 1730000000000 ms. -/
def sampleNow : ClockReading := { ms := 1730000000000, valid := by decide }

/-- A store holding nothing. -/
def emptyStore : Store := { transactions := [], categories := [], nextId := 0 }

/-! # Shared lemmas -/

/-! ## Own-property lemmas -/

namespace JSObject

variable {V : Type}

theorem own?_set (acc : JSObject V) (key : String) (v : V) (k : String) :
    own? (set acc key v) k = if key = k then some v else own? acc k := by
  induction acc with
  | nil => simp [set, own?]
  | cons hd tl ih =>
    obtain ⟨k0, w⟩ := hd
    by_cases h0 : k0 = key
    · subst h0
      by_cases h1 : k0 = k <;> simp [set, own?, h1]
    · by_cases h1 : k0 = k
      · subst h1
        have h2 : ¬ key = k0 := fun h => h0 h.symm
        simp [set, own?, h0, h2]
      · simp [set, own?, h0, h1, ih]

theorem own?_modify (acc : JSObject V) (key : String) (f : V → V) (k : String) :
    own? (modify acc key f) k = if key = k then (own? acc k).map f else own? acc k := by
  induction acc with
  | nil => simp [modify, own?]
  | cons hd tl ih =>
    obtain ⟨k0, w⟩ := hd
    by_cases h0 : k0 = key
    · subst h0
      by_cases h1 : k0 = k <;> simp [modify, own?, h1]
    · by_cases h1 : k0 = k
      · subst h1
        have h2 : ¬ key = k0 := fun h => h0 h.symm
        simp [modify, own?, h0, h2]
      · simp [modify, own?, h0, h1, ih]

/-- The guarded initialisation followed by an in-place update, as each reducer does:
`acc1` is `acc` after `if (!acc[key]) acc[key] = init`. -/
theorem own?_upsert (acc acc1 : JSObject V) (key : String) (init : V) (f : V → V)
    (hundef : own? acc key = none → acc1 = set acc key init)
    (hdef : ∀ v, own? acc key = some v → acc1 = acc) (k : String) :
    own? (modify acc1 key f) k
      = if key = k then some (f ((own? acc key).getD init)) else own? acc k := by
  rw [own?_modify]
  cases hown : own? acc key with
  | none =>
    rw [hundef hown]
    by_cases hk : key = k
    · subst hk
      simp [own?_set]
    · simp [own?_set, hk]
  | some v =>
    rw [hdef v hown]
    by_cases hk : key = k
    · subst hk
      simp [hown]
    · simp [hk]

theorem get_eq_undefined (acc : JSObject V) (key : String)
    (hkey : key ∉ objectPrototypeKeys) (h : own? acc key = none) :
    get acc key = .undefined := by
  simp [get, h, hkey]

theorem get_eq_own (acc : JSObject V) (key : String) (v : V) (h : own? acc key = some v) :
    get acc key = .own v := by
  simp [get, h]

end JSObject

theorem toLocaleString_not_inherited (d : JSDate) (style : MonthStyle) :
    toLocaleString d style ∉ objectPrototypeKeys := by
  cases d with
  | invalid => simp [toLocaleString, objectPrototypeKeys]
  | instant y m dd =>
    cases style <;> fin_cases m <;>
      simp [toLocaleString, monthName, shortMonthNames, longMonthNames, objectPrototypeKeys]

theorem monthTotal_nil (ty : TxType) (style : MonthStyle) (k : String) :
    monthTotal ty style [] k = 0 := by
  simp [monthTotal]

theorem monthTotal_cons (ty : TxType) (style : MonthStyle) (t : Transaction)
    (ts : List Transaction) (k : String) :
    monthTotal ty style (t :: ts) k
      = (if toLocaleString t.date style = k ∧ t.type = ty then t.amount else 0)
        + monthTotal ty style ts k := by
  unfold monthTotal
  by_cases h : toLocaleString t.date style = k ∧ t.type = ty
  · simp [List.filter_cons, h]
  · simp [List.filter_cons, h]

theorem monthTotal_append (ty : TxType) (style : MonthStyle) (ts us : List Transaction)
    (k : String) :
    monthTotal ty style (ts ++ us) k = monthTotal ty style ts k + monthTotal ty style us k := by
  simp [monthTotal, List.filter_append]

theorem monthTotal_eq_zero (ty : TxType) (style : MonthStyle) (ts : List Transaction)
    (k : String) (h : ∀ t ∈ ts, toLocaleString t.date style ≠ k) :
    monthTotal ty style ts k = 0 := by
  induction ts with
  | nil => exact monthTotal_nil ty style k
  | cons t ts ih =>
    rw [monthTotal_cons, ih (fun u hu => h u (List.mem_cons_of_mem _ hu))]
    simp [h t (List.mem_cons_self _ _)]

theorem monthlyAggregates_append (ts : List Transaction) (t : Transaction) :
    monthlyAggregates (ts ++ [t]) = monthlyReducer (monthlyAggregates ts) t := by
  simp [monthlyAggregates, List.foldl_append]

/-- Own properties of `monthlyAggregates`: one per month name that occurs, holding the
totals of that month. -/
theorem own?_monthlyAggregates (ts : List Transaction) (k : String) :
    JSObject.own? (monthlyAggregates ts) k
      = if ∃ t ∈ ts, toLocaleString t.date .short = k then
          some { name := k, income := monthTotal .income .short ts k,
                 expenses := monthTotal .expense .short ts k }
        else none := by
  induction ts using List.reverseRecOn with
  | nil => simp [monthlyAggregates, JSObject.own?]
  | append_singleton ts t ih =>
    rw [monthlyAggregates_append]
    have hk := toLocaleString_not_inherited t.date .short
    have hprev : (JSObject.own? (monthlyAggregates ts) k).getD
        { name := k, income := 0, expenses := 0 }
        = { name := k, income := monthTotal .income .short ts k,
            expenses := monthTotal .expense .short ts k } := by
      rw [ih]
      by_cases hex : ∃ u ∈ ts, toLocaleString u.date .short = k
      · simp [hex]
      · have hno : ∀ u ∈ ts, toLocaleString u.date .short ≠ k := by
          intro u hu heq
          exact hex ⟨u, hu, heq⟩
        simp [hex, monthTotal_eq_zero _ _ ts k hno]
    have hupd : ∀ f : MonthEntry → MonthEntry,
        JSObject.own? (JSObject.modify
          (match (monthlyAggregates ts).get (toLocaleString t.date .short) with
           | .undefined => (monthlyAggregates ts).set (toLocaleString t.date .short)
               { name := toLocaleString t.date .short, income := 0, expenses := 0 }
           | _ => monthlyAggregates ts) (toLocaleString t.date .short) f) k
        = if toLocaleString t.date .short = k then
            some (f ((JSObject.own? (monthlyAggregates ts) (toLocaleString t.date .short)).getD
              { name := toLocaleString t.date .short, income := 0, expenses := 0 }))
          else JSObject.own? (monthlyAggregates ts) k := by
      intro f
      apply JSObject.own?_upsert
      · intro h
        rw [JSObject.get_eq_undefined _ _ hk h]
      · intro v h
        rw [JSObject.get_eq_own _ _ v h]
    unfold monthlyReducer
    by_cases hkey : toLocaleString t.date .short = k
    · subst hkey
      cases hty : t.type with
      | income =>
        simp only [if_true]
        rw [hupd, if_pos rfl, hprev]
        have hex : ∃ u ∈ ts ++ [t],
            toLocaleString u.date .short = toLocaleString t.date .short :=
          ⟨t, by simp, rfl⟩
        rw [if_pos hex]
        simp [monthTotal_append, monthTotal_cons, monthTotal_nil, hty, parseFloat]
      | expense =>
        simp only [reduceCtorEq, if_false]
        rw [hupd, if_pos rfl, hprev]
        have hex : ∃ u ∈ ts ++ [t],
            toLocaleString u.date .short = toLocaleString t.date .short :=
          ⟨t, by simp, rfl⟩
        rw [if_pos hex]
        simp [monthTotal_append, monthTotal_cons, monthTotal_nil, hty, parseFloat]
    · have hstep : JSObject.own? (monthlyAggregates ts) k
          = if ∃ u ∈ ts ++ [t], toLocaleString u.date .short = k then
              some { name := k, income := monthTotal .income .short (ts ++ [t]) k,
                     expenses := monthTotal .expense .short (ts ++ [t]) k }
            else none := by
        rw [ih]
        have hiff : (∃ u ∈ ts ++ [t], toLocaleString u.date .short = k)
            ↔ ∃ u ∈ ts, toLocaleString u.date .short = k := by
          constructor
          · rintro ⟨u, hu, hu2⟩
            rcases List.mem_append.1 hu with h1 | h1
            · exact ⟨u, h1, hu2⟩
            · rw [List.mem_singleton.1 h1] at hu2
              exact absurd hu2 hkey
          · rintro ⟨u, hu, hu2⟩
            exact ⟨u, List.mem_append_left _ hu, hu2⟩
        simp only [hiff]
        simp [monthTotal_append, monthTotal_cons, monthTotal_nil, hkey]
      cases hty : t.type with
      | income =>
        simp only [if_true]
        rw [hupd, if_neg hkey, hstep]
      | expense =>
        simp only [reduceCtorEq, if_false]
        rw [hupd, if_neg hkey, hstep]


theorem fullYearMonths_eq :
    fullYearMonths
      = ["Jan", "Feb", "Mar", "Apr", "May", "Jun", "Jul", "Aug", "Sep", "Oct", "Nov", "Dec"] := by
  decide

/-- Closed form of `monthlyData`: entry `k` carries the totals of month `k`. -/
theorem monthlyData_eq (ts : List Transaction) :
    monthlyData ts = fullYearMonths.map (fun k =>
      { name := k, income := monthTotal .income .short ts k,
        expenses := monthTotal .expense .short ts k }) := by
  unfold monthlyData
  apply List.map_congr_left
  intro k _
  unfold monthEntryOrDefault JSObject.get
  rw [own?_monthlyAggregates]
  by_cases hex : ∃ t ∈ ts, toLocaleString t.date .short = k
  · simp [hex]
  · have hno : ∀ u ∈ ts, toLocaleString u.date .short ≠ k := by
      intro u hu heq
      exact hex ⟨u, hu, heq⟩
    rw [if_neg hex, monthTotal_eq_zero _ _ ts k hno, monthTotal_eq_zero _ _ ts k hno]
    by_cases hin : k ∈ objectPrototypeKeys <;> simp [hin]

theorem monthName_injective (style : MonthStyle) :
    ∀ i j : Fin 12, monthName style i = monthName style j → i = j := by
  cases style <;> decide

theorem sum_fullYear_cons (ty : TxType) (t : Transaction) (ts : List Transaction) :
    (fullYearMonths.map (monthTotal ty .short (t :: ts))).sum
      = (fullYearMonths.map (fun k =>
          if toLocaleString t.date .short = k ∧ t.type = ty then t.amount else 0)).sum
        + (fullYearMonths.map (monthTotal ty .short ts)).sum := by
  rw [← List.sum_map_add]
  congr 1
  apply List.map_congr_left
  intro k _
  exact monthTotal_cons ty .short t ts k

theorem sum_fullYear_indicator (ty : TxType) (t : Transaction) (hvalid : t.date ≠ .invalid) :
    (fullYearMonths.map (fun k =>
        if toLocaleString t.date .short = k ∧ t.type = ty then t.amount else 0)).sum
      = if t.type = ty then t.amount else 0 := by
  cases hd : t.date with
  | invalid => exact absurd hd hvalid
  | instant y m d =>
    rw [fullYearMonths_eq]
    by_cases hty : t.type = ty
    · fin_cases m <;>
        simp [toLocaleString, monthName, shortMonthNames, hty]
    · simp [hty]

/-- Over valid dates the twelve monthly totals of a type add up to the total of that
type. -/
theorem sum_fullYear_monthTotal (ty : TxType) (ts : List Transaction)
    (hvalid : ∀ t ∈ ts, t.date ≠ .invalid) :
    (fullYearMonths.map (monthTotal ty .short ts)).sum
      = ((ts.filter (fun t => t.type = ty)).map (fun t => t.amount)).sum := by
  induction ts with
  | nil => simp [fullYearMonths_eq, monthTotal_nil]
  | cons t ts ih =>
    rw [sum_fullYear_cons, sum_fullYear_indicator ty t (hvalid t (List.mem_cons_self _ _)),
      ih (fun u hu => hvalid u (List.mem_cons_of_mem _ hu))]
    by_cases hty : t.type = ty <;> simp [List.filter_cons, hty]

theorem monthlyData_getElem? (ts : List Transaction) (i : Fin 12) :
    (monthlyData ts)[i.val]?
      = some { name := monthName .short i,
               income := monthTotal .income .short ts (monthName .short i),
               expenses := monthTotal .expense .short ts (monthName .short i) } := by
  rw [monthlyData_eq, fullYearMonths_eq]
  fin_cases i <;> rfl

theorem toLocaleString_ne_monthName (style : MonthStyle) (d : JSDate) (i : Fin 12)
    (h : d.month? ≠ some i) : toLocaleString d style ≠ monthName style i := by
  cases d with
  | invalid =>
    cases style <;> fin_cases i <;>
      simp [toLocaleString, monthName, shortMonthNames, longMonthNames]
  | instant y m dd =>
    intro heq
    apply h
    simp only [JSDate.month?]
    exact congrArg some (monthName_injective style m i heq)

theorem currentMonthData_eq (ts : List Transaction) (y : Int) (m : Fin 12) (d : Nat) :
    currentMonthData (monthlyData ts) (toLocaleString (.instant y m d) .long)
      = (monthlyData ts)[m.val]? := by
  rw [monthlyData_getElem?, monthlyData_eq, fullYearMonths_eq]
  fin_cases m <;>
    simp [currentMonthData, substring0, toLocaleString, monthName, longMonthNames,
      shortMonthNames, List.find?]

theorem lower_long_injective :
    ∀ i j : Fin 12, toLowerCase (monthName .long i) = toLowerCase (monthName .long j) → i = j := by
  decide

theorem lower_long_ne_all :
    ∀ i : Fin 12, toLowerCase (monthName .long i) ≠ toLowerCase "all" := by
  decide

theorem lower_long_ne_invalid :
    ∀ i : Fin 12, toLowerCase "Invalid Date" ≠ toLowerCase (monthName .long i) := by
  decide

theorem summary_append (ts : List Transaction) (t : Transaction) :
    summary (ts ++ [t]) = summaryReducer (summary ts) t := by
  simp [summary, List.foldl_append]

/-- The object `summary` has no own property under a key that is no long month name of
a reduced transaction. -/
theorem own?_summary_eq_none (ts : List Transaction) (k : String)
    (h : ∀ t ∈ ts, toLocaleString t.date .long ≠ k) :
    JSObject.own? (summary ts) k = none := by
  induction ts using List.reverseRecOn with
  | nil => simp [summary, JSObject.own?]
  | append_singleton ts t ih =>
    have hprev := ih (fun u hu => h u (List.mem_append_left _ hu))
    have hkey : ¬ toLocaleString t.date .long = k := h t (by simp)
    have hk := toLocaleString_not_inherited t.date .long
    have hupd : ∀ f : Summary → Summary,
        JSObject.own? (JSObject.modify
          (match (summary ts).get (toLocaleString t.date .long) with
           | .undefined => (summary ts).set (toLocaleString t.date .long)
               { income := 0, expenses := 0 }
           | _ => summary ts) (toLocaleString t.date .long) f) k
        = JSObject.own? (summary ts) k := by
      intro f
      rw [JSObject.own?_upsert (summary ts) _ (toLocaleString t.date .long)
        { income := 0, expenses := 0 } f ?_ ?_ k, if_neg hkey]
      · intro h0
        rw [JSObject.get_eq_undefined _ _ hk h0]
      · intro v h0
        rw [JSObject.get_eq_own _ _ v h0]
    rw [summary_append]
    unfold summaryReducer
    cases hty : t.type with
    | income =>
      simp only [if_true]
      rw [hupd, hprev]
    | expense =>
      simp only [reduceCtorEq, if_false]
      rw [hupd, hprev]

theorem toLocaleString_long_ne_lower :
    ∀ i j : Fin 12, monthName .long i ≠ toLowerCase (monthName .long j) := by
  decide

theorem invalid_ne_lower_long :
    ∀ j : Fin 12, toLocaleString .invalid .long ≠ toLowerCase (monthName .long j) := by
  decide

theorem lower_long_not_inherited :
    ∀ j : Fin 12, toLowerCase (monthName .long j) ∉ objectPrototypeKeys := by
  decide

/-- Whatever the transactions, the summary shown for a month picked in the filter is the
zero record: `summary` is keyed by capitalised month names, the filter value is
lowercase. -/
theorem monthlySummary_lowercase_month (ts : List Transaction) (m : Fin 12) :
    monthlySummary ts (toLowerCase (monthName .long m))
      = .record { income := 0, expenses := 0 } := by
  have hnone : JSObject.own?
      (summary (filteredTransactions ts (toLowerCase (monthName .long m))))
      (toLowerCase (monthName .long m)) = none := by
    apply own?_summary_eq_none
    intro t _
    cases t.date with
    | invalid => exact invalid_ne_lower_long m
    | instant y i d => exact toLocaleString_long_ne_lower i m
  unfold monthlySummary JSObject.get
  rw [hnone]
  simp [lower_long_not_inherited m]

theorem insertIndexed_length {V : Type} (n : Nat) (v : V) (l : List (Nat × V)) :
    (insertIndexed n v l).length = l.length + 1 := by
  induction l with
  | nil => rfl
  | cons hd tl ih =>
    obtain ⟨m, w⟩ := hd
    by_cases h : n < m <;> simp [insertIndexed, h, ih]

theorem indexed_foldl_length {V : Type} (o : JSObject V) (acc : List (Nat × V)) :
    (o.foldl (fun acc kv =>
        match arrayIndex? kv.1 with
        | some n => insertIndexed n kv.2 acc
        | none => acc) acc).length
      = acc.length + (o.filter (fun kv => (arrayIndex? kv.1).isSome)).length := by
  induction o generalizing acc with
  | nil => simp
  | cons hd tl ih =>
    rw [List.foldl_cons, ih]
    cases h : arrayIndex? hd.1 with
    | none => simp [List.filter_cons, h]
    | some n =>
      simp [List.filter_cons, h, insertIndexed_length]
      omega

/-- `Object.values` lists every own property once. -/
theorem Object.values_length {V : Type} (o : JSObject V) :
    (Object.values o).length = o.length := by
  unfold Object.values
  simp only [List.length_append, List.length_map, indexed_foldl_length, List.length_nil,
    Nat.zero_add]
  induction o with
  | nil => rfl
  | cons hd tl ih =>
    cases h : arrayIndex? hd.1 with
    | none =>
      simp only [List.filter_cons, h, Option.isSome_none, Option.isNone_none, if_true,
        List.length_cons]
      simp only [Bool.false_eq_true, if_false]
      omega
    | some n =>
      simp only [List.filter_cons, h, Option.isSome_some, Option.isNone_some, if_true,
        List.length_cons]
      simp only [Bool.false_eq_true, if_false]
      omega

theorem categoryAggregates_append (ts : List Transaction) (t : Transaction) :
    categoryAggregates (ts ++ [t]) = categoryReducer (categoryAggregates ts) t := by
  simp [categoryAggregates, List.foldl_append]

/-- An expense whose category is no member name of `Object.prototype` leaves an own
property under its category. -/
theorem own?_categoryAggregates_isSome (ts : List Transaction) (c : String)
    (hc : c ∉ objectPrototypeKeys)
    (h : ∃ t ∈ ts, t.type = .expense ∧ t.category = c) :
    (JSObject.own? (categoryAggregates ts) c).isSome = true := by
  induction ts using List.reverseRecOn with
  | nil =>
    obtain ⟨t, ht, _⟩ := h
    exact absurd ht (List.not_mem_nil t)
  | append_singleton ts t ih =>
    rw [categoryAggregates_append]
    unfold categoryReducer
    cases hty : t.type with
    | income =>
      simp only [reduceCtorEq, if_false]
      apply ih
      obtain ⟨u, hu, hu1, hu2⟩ := h
      rcases List.mem_append.1 hu with h1 | h1
      · exact ⟨u, h1, hu1, hu2⟩
      · rw [List.mem_singleton.1 h1, hty] at hu1
        exact absurd hu1 (by decide)
    | expense =>
      simp only [if_true]
      rw [JSObject.own?_modify]
      by_cases hk : t.category = c
      · rw [if_pos hk]
        cases hown : JSObject.own? (categoryAggregates ts) t.category with
        | none =>
          rw [JSObject.get_eq_undefined _ _ (hk ▸ hc) hown]
          simp [JSObject.own?_set, hk]
        | some v =>
          rw [JSObject.get_eq_own _ _ v hown]
          simp only
          rw [← hk, hown]
          rfl
      · rw [if_neg hk]
        have hprev : (JSObject.own? (categoryAggregates ts) c).isSome = true := by
          apply ih
          obtain ⟨u, hu, hu1, hu2⟩ := h
          rcases List.mem_append.1 hu with h1 | h1
          · exact ⟨u, h1, hu1, hu2⟩
          · rw [List.mem_singleton.1 h1] at hu2
            exact absurd hu2 hk
        cases hget : (categoryAggregates ts).get t.category with
        | own v => simpa using hprev
        | inherited key => simpa using hprev
        | undefined => simpa [JSObject.own?_set, hk] using hprev

theorem colorCategories_uninitialized (random : RandomSource) (cat : CategoryEntry)
    (rest : List CategoryEntry) (i : Nat) :
    colorCategories .uninitialized random (cat :: rest) i
      = .error (.referenceError "COLORS") := rfl

theorem colorCategories_view (C : Binding (List String)) (random1 random2 : RandomSource)
    (cats : List CategoryEntry) (i j : Nat) :
    (colorCategories C random1 cats i).map (fun l => l.map (fun c => (c.name, c.value)))
      = (colorCategories C random2 cats j).map (fun l => l.map (fun c => (c.name, c.value))) := by
  induction cats generalizing i j with
  | nil => rfl
  | cons cat rest ih =>
    cases C with
    | uninitialized => rfl
    | initialized palette =>
      have h := ih (i + 1) (j + 1)
      simp only [colorCategories, Binding.read]
      cases h1 : colorCategories (.initialized palette) random1 rest (i + 1) with
      | error e1 =>
        cases h2 : colorCategories (.initialized palette) random2 rest (j + 1) with
        | error e2 =>
          rw [h1, h2] at h
          simpa [Except.map] using h
        | ok l2 =>
          rw [h1, h2] at h
          simp [Except.map] at h
      | ok l1 =>
        cases h2 : colorCategories (.initialized palette) random2 rest (j + 1) with
        | error e2 =>
          rw [h1, h2] at h
          simp [Except.map] at h
        | ok l2 =>
          rw [h1, h2] at h
          simp only [Except.map, Except.ok.injEq] at h
          simp [Except.map, h]

theorem categoryAggregates_salary : categoryAggregates [salary] = [] := by decide

theorem fullYearMonths_not_inherited : ∀ k ∈ fullYearMonths, k ∉ objectPrototypeKeys := by
  decide

theorem long_of_short :
    ∀ i : Fin 12, toLocaleString (dateOfShortMonth (monthName .short i)) .long
      = monthName .long i := by
  decide

theorem allMonths_monthlyData (ts : List Transaction) :
    allMonths (monthlyData ts) = (List.finRange 12).map (monthName .long) := by
  rw [monthlyData_eq]
  simp only [allMonths, fullYearMonths, List.map_map]
  apply List.map_congr_left
  intro i _
  exact long_of_short i

/-- The month filter offers `all` and the twelve lowercased long month names. -/
theorem selectValues_allMonths (ts : List Transaction) :
    selectValues (allMonths (monthlyData ts))
      = "all" :: (List.finRange 12).map (fun m => toLowerCase (monthName .long m)) := by
  rw [allMonths_monthlyData, selectValues, List.map_map]
  rfl

theorem categoryAggregates_coffee :
    categoryAggregates [coffee] = [("Dining", { name := "Dining", value := 9 / 2 })] := by
  simp [categoryAggregates, categoryReducer, coffee, JSObject.get, JSObject.own?,
    JSObject.set, JSObject.modify, objectPrototypeKeys, parseFloat]

theorem values_categoryAggregates_coffee :
    Object.values (categoryAggregates [coffee]) = [{ name := "Dining", value := 9 / 2 }] := by
  rw [categoryAggregates_coffee]
  have h : arrayIndex? "Dining" = none := by decide
  simp [Object.values, h]

/-- Once the palette is readable, the colour of a group follows the draw: draws of 0 and
of 1/2 give the first and the fourth palette entry. -/
theorem colors_depend_on_draws (now : JSDate) (filterMonth : String) :
    (useMemoCallback (.initialized COLORS) (constantDraws 0 (by norm_num) (by norm_num)) now
        [coffee] filterMonth).map (fun r => r.expenseCategories)
      = .ok [{ name := "Dining", value := 9 / 2, color := some "#0088FE" }]
    ∧ (useMemoCallback (.initialized COLORS) (constantDraws (1 / 2) (by norm_num) (by norm_num))
        now [coffee] filterMonth).map (fun r => r.expenseCategories)
      = .ok [{ name := "Dining", value := 9 / 2, color := some "#FF8042" }] := by
  have h0 : randomBelow (constantDraws 0 (by norm_num) (by norm_num) 0) 7 = 0 := by
    simp [randomBelow, constantDraws]
  have h1 : randomBelow (constantDraws (1 / 2) (by norm_num) (by norm_num) 0) 7 = 3 := by
    have hfloor : ⌊((1 : ℚ) / 2) * ((7 : ℕ) : ℚ)⌋ = 3 := by
      rw [Int.floor_eq_iff]
      norm_num
    simp only [randomBelow, constantDraws, hfloor]
    rfl
  have hlen : COLORS.length = 7 := rfl
  constructor
  · simp only [useMemoCallback, values_categoryAggregates_coffee, colorCategories, Binding.read,
      hlen, h0]
    simp [Except.map, coffee, parseFloat, COLORS]
  · simp only [useMemoCallback, values_categoryAggregates_coffee, colorCategories, Binding.read,
      hlen, h1]
    simp [Except.map, coffee, parseFloat, COLORS]

theorem monthName_long_ne_all : ∀ m : Fin 12, monthName .long m ≠ "all" := by decide

theorem toLocaleString_long_ne_all (d : JSDate) : toLocaleString d .long ≠ "all" := by
  cases d with
  | invalid => decide
  | instant y m dd => exact monthName_long_ne_all m

theorem all_not_inherited : "all" ∉ objectPrototypeKeys := by decide

/-- A call of `GET /api/categories` on a store without categories stores the nine
defaults and answers with the literal. -/
theorem getCategories_of_empty (stamp : Int) (s : Store) (h : s.categories = []) :
    (getCategories stamp s).2 = { status := 200, body := .categoryObjects defaultCategories }
      ∧ (getCategories stamp s).1.categories.map (fun d => (d.name, d.type)) = defaultPairs
      ∧ (getCategories stamp s).1.transactions = s.transactions := by
  obtain ⟨ts, cs, n⟩ := s
  simp only at h
  subst h
  simp [getCategories, Category.find, Category.insertMany, insertOrdered, defaultCategories,
    validCategory, requiredString, typeEnum, defaultPairs]

/-- A call of `GET /api/categories` on a store with categories answers with them and
writes nothing. -/
theorem getCategories_of_nonempty (stamp : Int) (s : Store) (h : s.categories ≠ []) :
    getCategories stamp s = (s, { status := 200, body := .categoryDocs s.categories }) := by
  have hlen : ¬ s.categories.length = 0 := fun h0 => h (List.length_eq_zero.1 h0)
  simp [getCategories, Category.find, hlen]

theorem getCategoriesSeq_of_seeded (s : Store)
    (h : s.categories.map (fun d => (d.name, d.type)) = defaultPairs) (stamps : List Int) :
    (getCategoriesSeq s stamps).1 = s
      ∧ (getCategoriesSeq s stamps).2.length = stamps.length
      ∧ ∀ r ∈ (getCategoriesSeq s stamps).2,
          r.status = 200 ∧ r.categoryPairs = some defaultPairs := by
  have hne : s.categories ≠ [] := by
    intro h0
    rw [h0] at h
    exact absurd h (by decide)
  induction stamps with
  | nil => simp [getCategoriesSeq]
  | cons stamp rest ih =>
    obtain ⟨ih1, ih2, ih3⟩ := ih
    simp only [getCategoriesSeq, getCategories_of_nonempty stamp s hne]
    refine ⟨ih1, by simp [ih2], ?_⟩
    intro r hr
    rcases List.mem_cons.1 hr with h1 | h1
    · subst h1
      exact ⟨rfl, by simp [Response.categoryPairs, h]⟩
    · exact ih3 r h1

/-! ## The monthly series over open arithmetic -/

theorem monthlyAggregatesOf_append {N : Type} (ops : NumberOps N) (ts : List Transaction)
    (t : Transaction) :
    monthlyAggregatesOf ops (ts ++ [t]) = monthlyReducerOf ops (monthlyAggregatesOf ops ts) t := by
  simp [monthlyAggregatesOf, List.foldl_append]

/-- Own properties after one step of the reducer on an expense. -/
theorem own?_monthlyReducerOf_expense {N : Type} (ops : NumberOps N)
    (acc : JSObject (MonthEntryOf N)) (t : Transaction) (htype : t.type = .expense)
    (k : String) :
    JSObject.own? (monthlyReducerOf ops acc t) k
      = if toLocaleString t.date .short = k then
          some
            { name := ((JSObject.own? acc (toLocaleString t.date .short)).getD
                { name := toLocaleString t.date .short, income := ops.zero,
                  expenses := ops.zero }).name,
              income := ((JSObject.own? acc (toLocaleString t.date .short)).getD
                { name := toLocaleString t.date .short, income := ops.zero,
                  expenses := ops.zero }).income,
              expenses := ops.add
                ((JSObject.own? acc (toLocaleString t.date .short)).getD
                  { name := toLocaleString t.date .short, income := ops.zero,
                    expenses := ops.zero }).expenses
                (ops.parseFloat t.amount) }
        else JSObject.own? acc k := by
  have hk := toLocaleString_not_inherited t.date .short
  unfold monthlyReducerOf
  simp only [htype, reduceCtorEq, if_false]
  apply JSObject.own?_upsert
  · intro h
    rw [JSObject.get_eq_undefined _ _ hk h]
  · intro v h
    rw [JSObject.get_eq_own _ _ v h]

/-- For a key that is no `Object.prototype` member the entry read is the own property
or the default. -/
theorem monthEntryOrDefaultOf_eq {N : Type} (ops : NumberOps N)
    (acc : JSObject (MonthEntryOf N)) (k : String) (hk : k ∉ objectPrototypeKeys) :
    monthEntryOrDefaultOf ops acc k
      = (JSObject.own? acc k).getD { name := k, income := ops.zero, expenses := ops.zero } := by
  unfold monthEntryOrDefaultOf JSObject.get
  cases h : JSObject.own? acc k with
  | none => simp [hk]
  | some e => simp

theorem monthlyDataOf_getElem? {N : Type} (ops : NumberOps N) (ts : List Transaction)
    (i : Fin 12) :
    (monthlyDataOf ops ts)[i.val]?
      = some (monthEntryOrDefaultOf ops (monthlyAggregatesOf ops ts) (monthName .short i)) := by
  unfold monthlyDataOf
  rw [fullYearMonths_eq]
  fin_cases i <;> rfl

theorem monthName_short_not_inherited (i : Fin 12) :
    monthName .short i ∉ objectPrototypeKeys :=
  toLocaleString_not_inherited (.instant 0 i 1) .short

/-! ## Exact amounts as an instance of the open arithmetic -/

theorem JSObject.own?_map {V W : Type} (g : V → W) (o : JSObject V) (k : String) :
    JSObject.own? (o.map (fun kv => (kv.1, g kv.2))) k = (JSObject.own? o k).map g := by
  induction o with
  | nil => rfl
  | cons hd tl ih =>
    obtain ⟨k0, w⟩ := hd
    by_cases h : k0 = k <;> simp [JSObject.own?, h, ih]

theorem JSObject.set_map {V W : Type} (g : V → W) (o : JSObject V) (k : String) (v : V) :
    (JSObject.set o k v).map (fun kv => (kv.1, g kv.2))
      = JSObject.set (o.map (fun kv => (kv.1, g kv.2))) k (g v) := by
  induction o with
  | nil => rfl
  | cons hd tl ih =>
    obtain ⟨k0, w⟩ := hd
    by_cases h : k0 = k <;> simp [JSObject.set, h, ih]

theorem JSObject.modify_map {V W : Type} (g : V → W) (f : V → V) (f2 : W → W)
    (hf : ∀ v, g (f v) = f2 (g v)) (o : JSObject V) (k : String) :
    (JSObject.modify o k f).map (fun kv => (kv.1, g kv.2))
      = JSObject.modify (o.map (fun kv => (kv.1, g kv.2))) k f2 := by
  induction o with
  | nil => rfl
  | cons hd tl ih =>
    obtain ⟨k0, w⟩ := hd
    by_cases h : k0 = k <;> simp [JSObject.modify, h, ih, hf]

theorem monthlyReducerOf_exact (acc : JSObject MonthEntry) (t : Transaction) :
    monthlyReducerOf exactOps (acc.map (fun kv => (kv.1, kv.2.toOf))) t
      = (monthlyReducer acc t).map (fun kv => (kv.1, kv.2.toOf)) := by
  have hk := toLocaleString_not_inherited t.date .short
  unfold monthlyReducerOf monthlyReducer
  cases hown : JSObject.own? acc (toLocaleString t.date .short) with
  | none =>
    have h1 : JSObject.get acc (toLocaleString t.date .short) = .undefined :=
      JSObject.get_eq_undefined _ _ hk hown
    have h2 : JSObject.get (acc.map (fun kv => (kv.1, kv.2.toOf)))
        (toLocaleString t.date .short) = .undefined :=
      JSObject.get_eq_undefined _ _ hk (by rw [JSObject.own?_map, hown]; rfl)
    simp only [h1, h2]
    cases t.type with
    | income =>
      simp only [if_true]
      rw [JSObject.modify_map MonthEntry.toOf
        (fun e => { e with income := e.income + parseFloat t.amount })
        (fun e => { e with income := exactOps.add e.income (exactOps.parseFloat t.amount) })
        (fun _ => rfl), JSObject.set_map]
      rfl
    | expense =>
      simp only [reduceCtorEq, if_false]
      rw [JSObject.modify_map MonthEntry.toOf
        (fun e => { e with expenses := e.expenses + parseFloat t.amount })
        (fun e => { e with expenses := exactOps.add e.expenses (exactOps.parseFloat t.amount) })
        (fun _ => rfl), JSObject.set_map]
      rfl
  | some e =>
    have h1 : JSObject.get acc (toLocaleString t.date .short) = .own e :=
      JSObject.get_eq_own _ _ e hown
    have h2 : JSObject.get (acc.map (fun kv => (kv.1, kv.2.toOf)))
        (toLocaleString t.date .short) = .own e.toOf :=
      JSObject.get_eq_own _ _ _ (by rw [JSObject.own?_map, hown]; rfl)
    simp only [h1, h2]
    cases t.type with
    | income =>
      simp only [if_true]
      rw [JSObject.modify_map MonthEntry.toOf
        (fun e => { e with income := e.income + parseFloat t.amount })
        (fun e => { e with income := exactOps.add e.income (exactOps.parseFloat t.amount) })
        (fun _ => rfl)]
    | expense =>
      simp only [reduceCtorEq, if_false]
      rw [JSObject.modify_map MonthEntry.toOf
        (fun e => { e with expenses := e.expenses + parseFloat t.amount })
        (fun e => { e with expenses := exactOps.add e.expenses (exactOps.parseFloat t.amount) })
        (fun _ => rfl)]

theorem foldl_monthlyReducerOf_exact (ts : List Transaction) (acc : JSObject MonthEntry) :
    ts.foldl (monthlyReducerOf exactOps) (acc.map (fun kv => (kv.1, kv.2.toOf)))
      = (ts.foldl monthlyReducer acc).map (fun kv => (kv.1, kv.2.toOf)) := by
  induction ts generalizing acc with
  | nil => rfl
  | cons t ts ih => rw [List.foldl_cons, List.foldl_cons, monthlyReducerOf_exact, ih]

/-- Over exact amounts the open form is `monthlyData`. -/
theorem monthlyDataOf_exact (ts : List Transaction) :
    monthlyDataOf exactOps ts = (monthlyData ts).map MonthEntry.toOf := by
  have hagg : monthlyAggregatesOf exactOps ts
      = (monthlyAggregates ts).map (fun kv => (kv.1, kv.2.toOf)) :=
    foldl_monthlyReducerOf_exact ts []
  unfold monthlyDataOf monthlyData
  rw [List.map_map, hagg]
  apply List.map_congr_left
  intro k _
  simp only [Function.comp, monthEntryOrDefaultOf, monthEntryOrDefault, JSObject.get,
    JSObject.own?_map]
  cases JSObject.own? (monthlyAggregates ts) k with
  | none => by_cases hin : k ∈ objectPrototypeKeys <;> simp [hin, MonthEntry.toOf, exactOps]
  | some e => simp

/-- A whole number of milliseconds within the range of a `Date` is its own time value. -/
theorem timeClip_intCast (n : Int) (h : validTime n) : timeClip (n : ℚ) = some n := by
  obtain ⟨h1, h2⟩ := h
  have habs : |(n : ℚ)| ≤ 8640000000000000 := by
    rw [abs_le]
    constructor
    · exact_mod_cast h1
    · exact_mod_cast h2
  unfold timeClip
  rw [if_pos habs]
  by_cases h0 : (0 : ℚ) ≤ (n : ℚ)
  · rw [if_pos h0, Int.floor_intCast]
  · rw [if_neg h0, Int.ceil_intCast]

/-! # The claims -/

/-- Claim C1: for every transaction list whose dates are all valid instants (the empty
list included), the income fields of the 12 entries of `monthlyData` add up to the sum
of `amount` over the transactions of type `income`. -/
theorem monthlyData_income_sum (transactions : List Transaction)
    (hvalid : ∀ t ∈ transactions, t.date ≠ .invalid) :
    ((monthlyData transactions).map (fun m => m.income)).sum
      = ((transactions.filter (fun t => t.type = .income)).map (fun t => t.amount)).sum := by
  rw [monthlyData_eq, List.map_map]
  exact sum_fullYear_monthTotal .income transactions hvalid


theorem monthlyData_income_sum_witness :
    (∀ t ∈ [coffee, salary], t.date ≠ .invalid)
      ∧ ((monthlyData [coffee, salary]).map (fun m => m.income)).sum
          = (([coffee, salary].filter (fun t => t.type = .income)).map (fun t => t.amount)).sum :=
  ⟨by decide, monthlyData_income_sum [coffee, salary] (by decide)⟩

/-- Claim C2: for every transaction list whose dates are all valid instants (the empty
list included), the expenses fields of the 12 entries of `monthlyData` add up to the
sum of `amount` over the transactions of type `expense`. -/
theorem monthlyData_expenses_sum (transactions : List Transaction)
    (hvalid : ∀ t ∈ transactions, t.date ≠ .invalid) :
    ((monthlyData transactions).map (fun m => m.expenses)).sum
      = ((transactions.filter (fun t => t.type = .expense)).map (fun t => t.amount)).sum := by
  rw [monthlyData_eq, List.map_map]
  exact sum_fullYear_monthTotal .expense transactions hvalid

theorem monthlyData_expenses_sum_witness :
    (∀ t ∈ [coffee, salary], t.date ≠ .invalid)
      ∧ ((monthlyData [coffee, salary]).map (fun m => m.expenses)).sum
          = (([coffee, salary].filter (fun t => t.type = .expense)).map
              (fun t => t.amount)).sum :=
  ⟨by decide, monthlyData_expenses_sum [coffee, salary] (by decide)⟩

/-- Claim C3: for every transaction list, whatever its dates and order, `monthlyData`
has exactly 12 entries, their names are `Jan`, ..., `Dec` in calendar order, and the
entry of every month in which no transaction falls has income 0 and expenses 0. -/
theorem monthlyData_full_year (transactions : List Transaction) :
    (monthlyData transactions).length = 12
      ∧ (monthlyData transactions).map (fun m => m.name)
          = ["Jan", "Feb", "Mar", "Apr", "May", "Jun", "Jul", "Aug", "Sep", "Oct", "Nov", "Dec"]
      ∧ ∀ i : Fin 12, (∀ t ∈ transactions, t.date.month? ≠ some i) →
          ∃ e, (monthlyData transactions)[i.val]? = some e ∧ e.income = 0 ∧ e.expenses = 0 := by
  refine ⟨?_, ?_, ?_⟩
  · simp [monthlyData, fullYearMonths]
  · rw [monthlyData_eq, List.map_map]
    simp [fullYearMonths_eq]
  · intro i hno
    have hkey : ∀ t ∈ transactions, toLocaleString t.date .short ≠ monthName .short i :=
      fun t ht => toLocaleString_ne_monthName .short t.date i (hno t ht)
    refine ⟨_, monthlyData_getElem? transactions i, ?_, ?_⟩
    · exact monthTotal_eq_zero _ _ _ _ hkey
    · exact monthTotal_eq_zero _ _ _ _ hkey

theorem monthlyData_full_year_witness :
    (∀ t ∈ [coffee, salary], t.date.month? ≠ some 0)
      ∧ ∃ e, (monthlyData [coffee, salary])[(0 : Fin 12).val]? = some e
          ∧ e.income = 0 ∧ e.expenses = 0 :=
  ⟨by decide, (monthlyData_full_year [coffee, salary]).2.2 0 (by decide)⟩

/-- Claim C4: with filter `all`, `filteredTransactions` is the input list; with a
filter that is the full name of month `m` in any letter case, it is the order-preserving
sublist of the transactions whose date falls in month `m`, and a transaction is in it
exactly when it is in the input and its full month name equals the filter ignoring
case. -/
theorem filteredTransactions_spec (transactions : List Transaction) :
    filteredTransactions transactions "all" = transactions
      ∧ ∀ (m : Fin 12) (filterMonth : String),
          toLowerCase filterMonth = toLowerCase (monthName .long m) →
          filteredTransactions transactions filterMonth
              = transactions.filter (fun t => t.date.month? = some m)
            ∧ (filteredTransactions transactions filterMonth).Sublist transactions
            ∧ ∀ t, t ∈ filteredTransactions transactions filterMonth
                ↔ t ∈ transactions
                  ∧ toLowerCase (toLocaleString t.date .long) = toLowerCase filterMonth := by
  refine ⟨by simp [filteredTransactions], ?_⟩
  intro m f hf
  have hne : f ≠ "all" := by
    intro h
    rw [h] at hf
    exact lower_long_ne_all m hf.symm
  have hfilter : filteredTransactions transactions f
      = transactions.filter (fun t =>
          toLowerCase (toLocaleString t.date .long) = toLowerCase f) := by
    simp [filteredTransactions, hne]
  refine ⟨?_, ?_, ?_⟩
  · rw [hfilter]
    apply List.filter_congr
    intro t _
    rw [hf]
    cases hd : t.date with
    | invalid =>
      have := lower_long_ne_invalid m
      simp [toLocaleString, JSDate.month?, this]
    | instant y m2 d =>
      by_cases hm : m2 = m
      · subst hm
        simp [toLocaleString, JSDate.month?]
      · have : ¬ toLowerCase (monthName .long m2) = toLowerCase (monthName .long m) :=
          fun h => hm (lower_long_injective m2 m h)
        simp [toLocaleString, JSDate.month?, hm, this]
  · rw [hfilter]
    exact List.filter_sublist _
  · intro t
    rw [hfilter]
    simp [List.mem_filter]


theorem filteredTransactions_spec_witness :
    toLowerCase "MaRcH" = toLowerCase (monthName .long 2)
      ∧ filteredTransactions [salary, constructorExpense, coffee] "MaRcH"
          = [salary, constructorExpense, coffee].filter (fun t => t.date.month? = some 2) :=
  ⟨by decide,
   (((filteredTransactions_spec [salary, constructorExpense, coffee]).2 2 "MaRcH")
      (by decide)).1⟩

/-- Claim C5 at its failing input: with filter `march` and the single March income of
100, `filteredTransactions` has length 1 and its income amounts sum to 100, yet
`monthlySummary` is the zero record: `summary` holds the totals under `March`, the
lookup reads `march`. -/
theorem monthlySummary_march_diverges :
    filteredTransactions [salary] "march" = [salary]
      ∧ (filteredTransactions [salary] "march").length = 1
      ∧ (((filteredTransactions [salary] "march").filter (fun t => t.type = .income)).map
          (fun t => t.amount)).sum = 100
      ∧ monthlySummary [salary] "march" = .record { income := 0, expenses := 0 }
      ∧ monthlySummary [salary] "march" ≠ .record { income := 100, expenses := 0 } := by
  have h1 : filteredTransactions [salary] "march" = [salary] := by decide
  have h2 : monthlySummary [salary] "march" = .record { income := 0, expenses := 0 } :=
    monthlySummary_lowercase_month [salary] 2
  refine ⟨h1, by rw [h1]; rfl, ?_, h2, ?_⟩
  · rw [h1]
    simp [salary]
  · rw [h2]
    intro h
    injection h with h
    injection h with h3 h4
    norm_num at h3


/-- Claim C6 at its failing input: one expense whose category text is `constructor`.
The guard `!acc[t.category]` sees the inherited `Object.prototype.constructor`, no
own property is created, and `expenseCategories` is returned empty, with no entry for
the category. -/
theorem expenseCategories_misses_constructor (random : RandomSource) (now : JSDate)
    (filterMonth : String) :
    categoryAggregates [constructorExpense] = []
      ∧ Object.values (categoryAggregates [constructorExpense]) = []
      ∧ ∃ r, HomePage.aggregation random now [constructorExpense] filterMonth = .ok r
          ∧ r.expenseCategories = [] := by
  have h1 : categoryAggregates [constructorExpense] = [] := by decide
  refine ⟨h1, by rw [h1]; rfl, ?_⟩
  unfold HomePage.aggregation useMemoCallback
  rw [h1]
  exact ⟨_, rfl, rfl⟩


/-- Claim C7, as the code behaves: whenever some expense-type transaction has a
category that is no member name of `Object.prototype`, the callback run by `useMemo`
throws `ReferenceError` on reading `COLORS`, which line 169 declares only after the
call; no entry is assigned a colour. -/
theorem aggregation_throws_on_expense (random : RandomSource) (now : JSDate)
    (transactions : List Transaction) (filterMonth : String)
    (h : ∃ t ∈ transactions, t.type = .expense ∧ t.category ∉ objectPrototypeKeys) :
    HomePage.aggregation random now transactions filterMonth
      = .error (.referenceError "COLORS") := by
  obtain ⟨t, ht, hty, hc⟩ := h
  have hsome := own?_categoryAggregates_isSome transactions t.category hc ⟨t, ht, hty, rfl⟩
  have hne : categoryAggregates transactions ≠ [] := by
    intro h0
    rw [h0] at hsome
    simp [JSObject.own?] at hsome
  have hlen : (Object.values (categoryAggregates transactions)).length ≠ 0 := by
    rw [Object.values_length]
    exact fun h0 => hne (List.length_eq_zero.1 h0)
  unfold HomePage.aggregation useMemoCallback
  cases hv : Object.values (categoryAggregates transactions) with
  | nil => rw [hv] at hlen; exact absurd rfl hlen
  | cons cat rest => simp only [colorCategories_uninitialized]

theorem aggregation_throws_on_coffee :
    (∃ t ∈ [coffee], t.type = .expense ∧ t.category ∉ objectPrototypeKeys)
      ∧ HomePage.aggregation (constantDraws 0 (by norm_num) (by norm_num))
          (.instant 2024 2 5) [coffee] "all" = .error (.referenceError "COLORS") :=
  ⟨⟨coffee, by simp, by decide, by decide⟩,
   aggregation_throws_on_expense _ _ _ _ ⟨coffee, by simp, by decide, by decide⟩⟩

/-- Claim C8: for every transaction list and each of the 12 current calendar months,
the lookup by the first three letters of the full month name finds the `monthlyData`
entry of that month, `totalIncome` and `totalExpenses` are its income and expenses, and
`netSavings` is their difference. -/
theorem current_month_totals (transactions : List Transaction) (y : Int) (m : Fin 12)
    (d : Nat) :
    ∃ e, (monthlyData transactions)[m.val]? = some e
      ∧ e.name = monthName .short m
      ∧ currentMonthData (monthlyData transactions) (toLocaleString (.instant y m d) .long)
          = some e
      ∧ totalIncome (monthlyData transactions) (toLocaleString (.instant y m d) .long)
          = e.income
      ∧ totalExpenses (monthlyData transactions) (toLocaleString (.instant y m d) .long)
          = e.expenses
      ∧ netSavings (monthlyData transactions) (toLocaleString (.instant y m d) .long)
          = e.income - e.expenses := by
  have h := currentMonthData_eq transactions y m d
  rw [monthlyData_getElem?] at h
  refine ⟨_, monthlyData_getElem? transactions m, rfl, h, ?_, ?_, ?_⟩
  · simp [totalIncome, h]
  · simp [totalExpenses, h]
  · simp [netSavings, totalIncome, totalExpenses, h]

/-- Claim C9, amended: for every transaction list and filter, two runs of the callback
at instants of the same calendar month, whatever their random draws, both throw or both
return, and then agree on the monthly series, the name and value of each category
group, the three totals, the filtered list, the filtered summary and the month-name
list. `HomePage.aggregation` is the case of the uninitialised binding. -/
theorem aggregation_view_deterministic (C : Binding (List String))
    (random1 random2 : RandomSource) (now1 now2 : JSDate)
    (transactions : List Transaction) (filterMonth : String)
    (hmonth : now1.month? = now2.month?) :
    (useMemoCallback C random1 now1 transactions filterMonth).map Aggregation.view
      = (useMemoCallback C random2 now2 transactions filterMonth).map Aggregation.view := by
  have hcm : toLocaleString now1 .long = toLocaleString now2 .long := by
    cases now1 <;> cases now2 <;> simp_all [JSDate.month?, toLocaleString]
  have h := colorCategories_view C random1 random2
    (Object.values (categoryAggregates transactions)) 0 0
  unfold useMemoCallback
  rw [hcm]
  cases h1 : colorCategories C random1 (Object.values (categoryAggregates transactions)) 0 with
  | error e1 =>
    cases h2 : colorCategories C random2 (Object.values (categoryAggregates transactions)) 0 with
    | error e2 =>
      rw [h1, h2] at h
      simp only [h1, h2]
      simpa [Except.map] using h
    | ok l2 =>
      rw [h1, h2] at h
      simp [Except.map] at h
  | ok l1 =>
    cases h2 : colorCategories C random2 (Object.values (categoryAggregates transactions)) 0 with
    | error e2 =>
      rw [h1, h2] at h
      simp [Except.map] at h
    | ok l2 =>
      rw [h1, h2] at h
      simp only [Except.map, Except.ok.injEq] at h
      simp only [h1, h2]
      simp [Except.map, Aggregation.view, h]

theorem aggregation_view_deterministic_witness :
    (JSDate.instant 2024 2 5).month? = (JSDate.instant 2025 2 20).month?
      ∧ (useMemoCallback .uninitialized (constantDraws 0 (by norm_num) (by norm_num))
            (.instant 2024 2 5) [salary] "all").map Aggregation.view
          = (useMemoCallback .uninitialized (constantDraws (1 / 2) (by norm_num) (by norm_num))
            (.instant 2025 2 20) [salary] "all").map Aggregation.view :=
  ⟨rfl, aggregation_view_deterministic _ _ _ _ _ _ _ rfl⟩

/-- Claim C9 as stated fails: with the same transactions, filter and random draws, a run
in March returns totals 100 and a run in April returns totals 0. -/
theorem totals_depend_on_current_month :
    ∃ r1 r2,
      HomePage.aggregation (constantDraws 0 (by norm_num) (by norm_num))
          (.instant 2024 2 5) [salary] "all" = .ok r1
        ∧ HomePage.aggregation (constantDraws 0 (by norm_num) (by norm_num))
          (.instant 2024 3 5) [salary] "all" = .ok r2
        ∧ r1.totalIncome = 100 ∧ r2.totalIncome = 0
        ∧ r1.netSavings = 100 ∧ r2.netSavings = 0 := by
  have hn2 : monthName .short 2 = "Mar" := by decide
  have hn3 : monthName .short 3 = "Apr" := by decide
  have hMar : currentMonthData (monthlyData [salary]) (toLocaleString (.instant 2024 2 5) .long)
      = some { name := "Mar", income := 100, expenses := 0 } := by
    rw [currentMonthData_eq, monthlyData_getElem?, hn2]
    simp [monthTotal, salary, toLocaleString, hn2]
  have hApr : currentMonthData (monthlyData [salary]) (toLocaleString (.instant 2024 3 5) .long)
      = some { name := "Apr", income := 0, expenses := 0 } := by
    rw [currentMonthData_eq, monthlyData_getElem?, hn3]
    simp [monthTotal, salary, toLocaleString, hn2]
  unfold HomePage.aggregation useMemoCallback
  rw [categoryAggregates_salary]
  refine ⟨_, _, rfl, rfl, ?_, ?_, ?_, ?_⟩
  · simp [totalIncome, hMar]
  · simp [totalIncome, hApr]
  · simp [netSavings, totalIncome, totalExpenses, hMar]
  · simp [netSavings, totalIncome, totalExpenses, hApr]

/-- Claim C10: for every transaction list and every expense-type transaction `t` dated
in month `m`, the monthly series of the list with `t` added after it (the order in which
the store returns a posted record) has the expenses of entry `m` equal to their value
for the list plus `t.amount`, and the income and name of entry `m` and the other 11
entries unchanged. The numbers and their addition are left open, so this holds for the
doubles of the browser; the witness is Coffee, 4.50, dated 2024-03-05. -/
theorem monthlyData_add_expense {N : Type} (ops : NumberOps N)
    (transactions : List Transaction) (t : Transaction) (y : Int) (m : Fin 12) (d : Nat)
    (htype : t.type = .expense) (hdate : t.date = .instant y m d) (i : Fin 12) :
    ∃ old new, (monthlyDataOf ops transactions)[i.val]? = some old
      ∧ (monthlyDataOf ops (transactions ++ [t]))[i.val]? = some new
      ∧ new.name = old.name
      ∧ new.income = old.income
      ∧ new.expenses
          = (if i = m then ops.add old.expenses (ops.parseFloat t.amount)
             else old.expenses) := by
  have hi := monthName_short_not_inherited i
  have hkey : toLocaleString t.date .short = monthName .short m := by
    rw [hdate]
    rfl
  have hnew : monthEntryOrDefaultOf ops (monthlyAggregatesOf ops (transactions ++ [t]))
        (monthName .short i)
      = (JSObject.own? (monthlyReducerOf ops (monthlyAggregatesOf ops transactions) t)
          (monthName .short i)).getD
          { name := monthName .short i, income := ops.zero, expenses := ops.zero } := by
    rw [monthEntryOrDefaultOf_eq ops _ _ hi, monthlyAggregatesOf_append]
  refine ⟨_, _, monthlyDataOf_getElem? ops transactions i,
    monthlyDataOf_getElem? ops (transactions ++ [t]) i, ?_⟩
  rw [hnew, own?_monthlyReducerOf_expense ops _ t htype, hkey,
    monthEntryOrDefaultOf_eq ops _ _ hi]
  by_cases him : i = m
  · subst him
    simp
  · have hne : ¬ monthName .short m = monthName .short i :=
      fun h => him (monthName_injective .short m i h).symm
    simp [hne, him]

theorem monthlyData_add_coffee :
    (coffee.type = .expense ∧ coffee.date = .instant 2024 2 5)
      ∧ ∃ old new, (monthlyDataOf exactOps [salary])[(2 : Fin 12).val]? = some old
          ∧ (monthlyDataOf exactOps ([salary] ++ [coffee]))[(2 : Fin 12).val]? = some new
          ∧ new.name = old.name
          ∧ new.income = old.income
          ∧ new.expenses
              = (if (2 : Fin 12) = 2 then
                   exactOps.add old.expenses (exactOps.parseFloat coffee.amount)
                 else old.expenses) :=
  ⟨⟨rfl, rfl⟩, monthlyData_add_expense exactOps [salary] coffee 2024 2 5 rfl rfl 2⟩

/-- Claim C11: starting from a store without categories, after `n >= 1` sequential calls
of `GET /api/categories` the store holds exactly the nine defaults, each name once, and
every call answers 200 with exactly these nine name/type pairs; a call on a store that
has categories leaves the store unchanged. -/
theorem getCategories_seeds_once (s0 : Store) (stamps : List Int)
    (hempty : s0.categories = []) (hn : 1 ≤ stamps.length) :
    ((getCategoriesSeq s0 stamps).1.categories.map (fun d => (d.name, d.type)) = defaultPairs
        ∧ ((getCategoriesSeq s0 stamps).1.categories.map (fun d => d.name)).Nodup
        ∧ (getCategoriesSeq s0 stamps).1.transactions = s0.transactions
        ∧ (getCategoriesSeq s0 stamps).2.length = stamps.length
        ∧ ∀ r ∈ (getCategoriesSeq s0 stamps).2,
            r.status = 200 ∧ r.categoryPairs = some defaultPairs)
      ∧ ∀ (s : Store) (stamp : Int), s.categories ≠ [] → (getCategories stamp s).1 = s := by
  constructor
  · cases stamps with
    | nil => simp at hn
    | cons stamp rest =>
      obtain ⟨h1, h2, h3⟩ := getCategories_of_empty stamp s0 hempty
      obtain ⟨k1, k2, k3⟩ := getCategoriesSeq_of_seeded (getCategories stamp s0).1 h2 rest
      simp only [getCategoriesSeq]
      rw [k1]
      refine ⟨h2, ?_, h3, by simp [k2], ?_⟩
      · have hnames : (getCategories stamp s0).1.categories.map (fun d => d.name)
            = defaultPairs.map Prod.fst := by
          rw [← h2, List.map_map]
          rfl
        rw [hnames]
        decide
      · intro r hr
        rcases List.mem_cons.1 hr with h0 | h0
        · subst h0
          rw [h1]
          exact ⟨rfl, by decide⟩
        · exact k3 r h0
  · intro s stamp hne
    rw [getCategories_of_nonempty stamp s hne]

theorem getCategories_seeds_once_witness :
    (emptyStore.categories = []
        ∧ 1 ≤ [10, 20, 30].length)
      ∧ (getCategoriesSeq emptyStore
            [10, 20, 30]).1.categories.map (fun d => (d.name, d.type)) = defaultPairs :=
  ⟨⟨rfl, by decide⟩,
   (getCategories_seeds_once emptyStore
      [10, 20, 30] rfl (by decide)).1.1⟩

/-- Claim C12, amended: for every store and every body with a non-empty description, an
amount, a type in `income`/`expense`, a non-empty category and a date that is missing or
`null`, or a non-zero whole number of milliseconds of magnitude at most 8.64e15, or a
non-empty text the runtime parses as a date, `POST /api/transactions` answers 201 with a
record carrying exactly those values, its date being the current time when the date is
missing or `null`; the following `GET /api/transactions` answers 200 with a list holding
that record and every record stored before. -/
theorem postTransactions_then_get (parseDate : String → Option Int) (now : ClockReading)
    (stamp : Int) (s : Store) (body : TransactionPayload) (d : String) (a : ℚ)
    (t c : String) (instant : Int)
    (hd : body.description = some d) (hd0 : d ≠ "") (ha : body.amount = some a)
    (ht : body.type = some t) (henum : t = "income" ∨ t = "expense")
    (hc : body.category = some c) (hc0 : c ≠ "")
    (hdate : ((body.date = .absent ∨ body.date = .null) ∧ instant = now.ms)
      ∨ (body.date = .value (.number (instant : ℚ)) ∧ instant ≠ 0 ∧ validTime instant)
      ∨ (∃ txt, body.date = .value (.text txt) ∧ txt ≠ "" ∧ parseDate txt = some instant)) :
    ∃ doc,
      (postTransactions parseDate now stamp s body).2
          = { status := 201, body := .transaction doc }
        ∧ doc.description = d ∧ doc.amount = a ∧ doc.type = t ∧ doc.category = c
        ∧ doc.date = instant
        ∧ doc.id = s.nextId ∧ doc.createdAt = stamp ∧ doc.updatedAt = stamp
        ∧ ∃ docs,
            getTransactions (postTransactions parseDate now stamp s body).1
                = { status := 200, body := .transactions docs }
              ∧ doc ∈ docs ∧ ∀ old ∈ s.transactions, old ∈ docs := by
  have hcast : castDate parseDate (dateOrNow body.date now) = some instant := by
    rcases hdate with ⟨h1 | h1, h2⟩ | ⟨h1, h2, h3⟩ | ⟨txt, h1, h2, h3⟩
    · simp [h1, h2, dateOrNow, castDate, timeClip_intCast _ now.valid]
    · simp [h1, h2, dateOrNow, castDate, timeClip_intCast _ now.valid]
    · simp [h1, h2, dateOrNow, castDate, timeClip_intCast _ h3]
    · simp [h1, h2, dateOrNow, castDate, h3]
  have htype : t ≠ "" ∧ t ∈ typeEnum := by
    rcases henum with h | h <;> subst h <;> decide
  have hsave : Transaction.save parseDate stamp s body.description body.amount body.type
      body.category (dateOrNow body.date now)
      = some ({ s with
                transactions := s.transactions ++
                  [{ id := s.nextId, description := d, amount := a, type := t, category := c,
                     date := instant, createdAt := stamp, updatedAt := stamp }]
                nextId := s.nextId + 1 },
              { id := s.nextId, description := d, amount := a, type := t, category := c,
                date := instant, createdAt := stamp, updatedAt := stamp }) := by
    simp [Transaction.save, hd, ha, ht, hc, requiredString, hd0, hc0, htype.1, htype.2, hcast]
  refine ⟨{ id := s.nextId, description := d, amount := a, type := t, category := c,
            date := instant, createdAt := stamp, updatedAt := stamp }, ?_, rfl, rfl, rfl, rfl,
          rfl, rfl, rfl, rfl, ?_⟩
  · simp [postTransactions, hsave]
  · refine ⟨s.transactions ++
        [{ id := s.nextId, description := d, amount := a, type := t, category := c,
           date := instant, createdAt := stamp, updatedAt := stamp }], ?_, ?_, ?_⟩
    · simp [postTransactions, hsave, getTransactions, Transaction.find]
    · simp
    · intro old hold
      exact List.mem_append_left _ hold

theorem postTransactions_coffee :
    (coffeePayload.date = .value (.text "2024-03-05")
        ∧ scenarioParseDate "2024-03-05" = some 1709596800000)
      ∧ ∃ doc,
          (postTransactions scenarioParseDate sampleNow 1730000000001 emptyStore
              coffeePayload).2 = { status := 201, body := .transaction doc }
            ∧ doc.description = "Coffee" ∧ doc.amount = 9 / 2 ∧ doc.type = "expense"
            ∧ doc.category = "Dining" ∧ doc.date = 1709596800000
            ∧ doc.id = emptyStore.nextId ∧ doc.createdAt = 1730000000001
            ∧ doc.updatedAt = 1730000000001
            ∧ ∃ docs,
                getTransactions (postTransactions scenarioParseDate sampleNow
                    1730000000001 emptyStore coffeePayload).1
                    = { status := 200, body := .transactions docs }
                  ∧ doc ∈ docs ∧ ∀ old ∈ emptyStore.transactions, old ∈ docs :=
  ⟨⟨rfl, by decide⟩,
   postTransactions_then_get scenarioParseDate sampleNow 1730000000001 emptyStore
     coffeePayload "Coffee" (9 / 2) "expense" "Dining" 1709596800000 rfl (by decide) rfl rfl
     (Or.inr rfl) rfl (by decide)
     (Or.inr (Or.inr ⟨"2024-03-05", rfl, by decide, by decide⟩))⟩

/-- Claim C12 as stated fails at four bodies, each the scenario's body with one field
changed. With an empty description the schema's `required` rejects the save and the
route answers 500, storing nothing. With the date given as the number 0 the route
answers 201 with the date set to the current time. With the date given as
8640000000000001, a number no `Date` holds, the cast fails and the route answers 500.
With the date given as 1.5 the stored date is 1. -/
theorem postTransactions_rejected_or_redated :
    postTransactions scenarioParseDate sampleNow 1730000000001 emptyStore
        { coffeePayload with description := some "" } = (emptyStore, serverError)
      ∧ (∃ doc,
          (postTransactions scenarioParseDate sampleNow 1730000000001 emptyStore
              { coffeePayload with date := .value (.number 0) }).2
              = { status := 201, body := .transaction doc }
            ∧ doc.date = 1730000000000 ∧ doc.date ≠ 0)
      ∧ postTransactions scenarioParseDate sampleNow 1730000000001 emptyStore
          { coffeePayload with date := .value (.number 8640000000000001) }
          = (emptyStore, serverError)
      ∧ ∃ doc,
          (postTransactions scenarioParseDate sampleNow 1730000000001 emptyStore
              { coffeePayload with date := .value (.number (3 / 2)) }).2
              = { status := 201, body := .transaction doc }
            ∧ doc.date = 1 := by
  have hnow : timeClip (1730000000000 : ℚ) = some 1730000000000 := by
    have h := timeClip_intCast 1730000000000 (by decide)
    simpa using h
  have hbig : timeClip 8640000000000001 = none := by
    unfold timeClip
    rw [if_neg]
    rw [abs_of_nonneg (by norm_num)]
    norm_num
  have hfrac : timeClip (3 / 2) = some 1 := by
    have hfloor : ⌊(3 / 2 : ℚ)⌋ = 1 := by
      rw [Int.floor_eq_iff]
      norm_num
    unfold timeClip
    rw [if_pos (by rw [abs_of_nonneg (by norm_num)]; norm_num), if_pos (by norm_num), hfloor]
  refine ⟨?_, ?_, ?_, ?_⟩
  · simp [postTransactions, Transaction.save, requiredString, coffeePayload]
  · refine ⟨{ id := 0, description := "Coffee", amount := 9 / 2, type := "expense",
              category := "Dining", date := 1730000000000, createdAt := 1730000000001,
              updatedAt := 1730000000001 }, ?_, rfl, by decide⟩
    simp [postTransactions, Transaction.save, requiredString, coffeePayload, dateOrNow,
      castDate, sampleNow, hnow, typeEnum, emptyStore]
  · simp [postTransactions, Transaction.save, requiredString, coffeePayload, dateOrNow,
      castDate, hbig]
  · refine ⟨{ id := 0, description := "Coffee", amount := 9 / 2, type := "expense",
              category := "Dining", date := 1, createdAt := 1730000000001,
              updatedAt := 1730000000001 }, ?_, rfl⟩
    simp [postTransactions, Transaction.save, requiredString, coffeePayload, dateOrNow,
      castDate, hfrac, typeEnum, emptyStore]

/-- Claim C13: with filter `all`, `filteredTransactions` is the whole list and
`monthlySummary` is `{ income: 0, expenses: 0 }` for every transaction list: `summary`
is read under the key `all`, and no month name of a date is `all`. -/
theorem monthlySummary_all_zero (transactions : List Transaction) :
    filteredTransactions transactions "all" = transactions
      ∧ monthlySummary transactions "all" = .record { income := 0, expenses := 0 }
      ∧ ∀ d : JSDate, toLocaleString d .long ≠ "all" := by
  refine ⟨by simp [filteredTransactions], ?_, toLocaleString_long_ne_all⟩
  have hnone : JSObject.own? (summary (filteredTransactions transactions "all")) "all" = none :=
    own?_summary_eq_none _ _ (fun t _ => toLocaleString_long_ne_all t.date)
  unfold monthlySummary JSObject.get
  rw [hnone]
  simp [all_not_inherited]

end Finstack
